import Mathlib

/-!
Verification of the distributed betweenness-centrality engine
(`dist_apps/experimental/apps/cgo/bc_pull/gen.cpp`).

Modelling conventions
* The engine is modelled on a single host.  With one host every vertex is
  owned and has exactly one replica, the reduce/broadcast sync steps are the
  identity, and `getGID v = v`.  A state is a function from vertices to the
  per-vertex record `NodeData` (the C++ struct `NodeData`).
* `uint32_t` arithmetic is `Nat` reduced mod `2 ^ 32` (`add32`, `sub32`)
  at every arithmetic step the C++ code performs on a `uint32_t`.
* `float` fields (`dependency`, `betweeness_centrality`, `to_add_float`) are
  modelled as `ℚ` with exact arithmetic; IEEE rounding is not modelled.
  Division by zero in `ℚ` yields `0` (in C it would be `inf`/`NaN`).
  The C conversion `uint32_t dep = src_data.dependency` (a float read into an
  unsigned integer, truncating toward zero) is modelled by `truncF`.
* Supersteps are bulk-synchronous: every per-vertex operator of a superstep
  reads the state at the start of the superstep (the canonical fields it
  reads are never written in the same superstep, so this agrees with the
  code), and all delta-field increments of the superstep are accumulated.
  The per-vertex edge loops are modelled operationally, edge by edge.
* `do_all` ranges: operators launched on `allNodesWithEdgesRange` only run
  on vertices with at least one outgoing edge; where this is observable
  (the δ-phase operators, which write flags unconditionally) the model
  guards on `g.edges v ≠ []`.  Operators launched on `allNodesRange` run on
  every vertex.
* Assertions (`assert(...)`) do not change state; they are modelled as
  separate boolean checks placed exactly where the code evaluates them.
-/

namespace BCPull

/-- Modulus of `uint32_t` arithmetic. -/
def U32 : Nat := 2 ^ 32

/-- The code's `infinity`: `std::numeric_limits<uint32_t>::max() / 4`. -/
def infinity : Nat := (U32 - 1) / 4

/-- Addition on `uint32_t` (wraps mod `2^32`). -/
def add32 (a b : Nat) : Nat := (a + b) % U32

/-- Subtraction on `uint32_t` (wraps mod `2^32`). -/
def sub32 (a b : Nat) : Nat := (a + U32 - b % U32) % U32

/-- The effect of `k` successive `uint32_t` increments by one (the atomic
`+= 1` updates a delta field receives during one superstep). -/
def iterAdd1 (a : Nat) : Nat → Nat
  | 0 => a
  | k + 1 => add32 (iterAdd1 a k) 1

/-- The effect of successive `uint32_t` adds of the elements of a list. -/
def addAll (a : Nat) : List Nat → Nat
  | [] => a
  | x :: l => addAll (add32 a x) l

/-- The C conversion `uint32_t dep = src_data.dependency;`: a nonnegative
float truncated toward zero to an unsigned integer. -/
def truncF (q : ℚ) : Nat := (⌊q⌋).toNat

/-- The per-vertex record, mirroring the C++ `struct NodeData` field by
field.  `std::atomic<uint32_t>`/`std::atomic<float>` fields carry the same
value type as their plain counterparts; atomicity matters only for how
concurrent increments combine, which the superstep functions model. -/
structure NodeData where
  current_length : Nat
  num_shortest_paths : Nat
  num_successors : Nat
  num_predecessors : Nat
  dependency : ℚ
  betweeness_centrality : ℚ
  propogation_flag : Bool
  trim : Nat
  to_add : Nat
  trim2 : Nat
  to_add_float : ℚ
  num_short_paths_flag : Bool
  dep_prop_flag : Bool
deriving DecidableEq

/-- A directed graph on vertices `0 .. n-1`, given by out-edge lists (the
`hGraph` structure restricted to one host; `edges v` is the list of
destinations of the out-edges of `v`, multi-edges allowed). -/
structure Graph where
  n : Nat
  edges : Fin n → List (Fin n)

/-- The global vertex state: one `NodeData` per vertex. -/
def State (g : Graph) := Fin g.n → NodeData

/-- A node record with every field zero/false; used for concrete states. -/
def baseNode : NodeData :=
  { current_length := 0, num_shortest_paths := 0, num_successors := 0,
    num_predecessors := 0, dependency := 0, betweeness_centrality := 0,
    propogation_flag := false, trim := 0, to_add := 0, trim2 := 0,
    to_add_float := 0, num_short_paths_flag := false, dep_prop_flag := false }

/-! ### InitializeGraph (load-time reset) -/

/-- The operator `InitializeGraph::operator()`: zero `betweeness_centrality`,
`num_shortest_paths`, `num_successors`, `num_predecessors`, `dependency`
and clear `propogation_flag`.  (The other fields are not written.) -/
def initializeGraphNode (d : NodeData) : NodeData :=
  { d with betweeness_centrality := 0, num_shortest_paths := 0,
           num_successors := 0, num_predecessors := 0, dependency := 0,
           propogation_flag := false }

/-- The superstep `InitializeGraph::go`: the operator over `allNodesRange`. -/
def initializeGraphStep (g : Graph) (st : State g) : State g :=
  fun v => initializeGraphNode (st v)

/-! ### InitializeIteration (per-source reset) -/

/-- The operator `InitializeIteration::operator()` as a state transformation (the
asserts, which do not write, are `initItAssertOk` below).  In code order:
the source/non-source branch writes `current_length`,
`num_shortest_paths`, `propogation_flag`; then `num_successors = 0`; then
(after the asserts) `num_short_paths_flag = false` and
`dep_prop_flag = false`.  `num_predecessors` is never written. -/
def initItNode (srcid gid : Nat) (d : NodeData) : NodeData :=
  let d1 :=
    if gid = srcid then
      { d with current_length := 0, num_shortest_paths := 1,
               propogation_flag := true }
    else
      { d with current_length := infinity, num_shortest_paths := 0,
               propogation_flag := false }
  let d2 := { d1 with num_successors := 0 }
  { d2 with num_short_paths_flag := false, dep_prop_flag := false }

/-- The two asserts of `InitializeIteration::operator()` evaluated at the
program point where the code evaluates them: after the branch writes and
after `num_successors = 0` (so the second conjunct is checked on the
already-zeroed field). -/
def initItAssertOk (srcid gid : Nat) (d : NodeData) : Bool :=
  let d1 :=
    if gid = srcid then
      { d with current_length := 0, num_shortest_paths := 1,
               propogation_flag := true }
    else
      { d with current_length := infinity, num_shortest_paths := 0,
               propogation_flag := false }
  let d2 := { d1 with num_successors := 0 }
  decide (d2.num_predecessors = 0) && decide (d2.num_successors = 0)

/-- Modelled from the spec: the assertion placement §4.2 prescribes —
`npred == 0` and `nsucc == 0` checked on entry, before any zeroing.
Used only to compare against `initItAssertOk`. -/
def specInitItAssert (d : NodeData) : Bool :=
  decide (d.num_predecessors = 0) && decide (d.num_successors = 0)

/-- The superstep `InitializeIteration::go`: the operator over `allNodesRange`; with one
host `getGID v = v`. -/
def initItStep (g : Graph) (srcid : Nat) (st : State g) : State g :=
  fun v => initItNode srcid (v : Nat) (st v)

/-! ### DPTrim and DPAdd (δ-phase apply supersteps) -/

/-- The operator `DPTrim::operator()`: if `trim2 > 0`, subtract `trim2` from
`num_successors` and set `trim` (sic, not `trim2`) to `0`. -/
def dpTrimNode (d : NodeData) : NodeData :=
  if 0 < d.trim2 then
    { d with num_successors := sub32 d.num_successors d.trim2, trim := 0 }
  else d

/-- The superstep `DPTrim::go` over `allNodesRange`. -/
def dpTrimStep (g : Graph) (st : State g) : State g :=
  fun v => dpTrimNode (st v)

/-- The operator `DPAdd::operator()`: if `to_add_float > 0`, add it to `dependency` and
reset it. -/
def dpAddNode (d : NodeData) : NodeData :=
  if 0 < d.to_add_float then
    { d with dependency := d.dependency + d.to_add_float, to_add_float := 0 }
  else d

/-- The superstep `DPAdd::go` over `allNodesRange`. -/
def dpAddStep (g : Graph) (st : State g) : State g :=
  fun v => dpAddNode (st v)

/-! ### BC accumulation -/

/-- The operator `BC::operator()`: if `dependency > 0`, fold it into
`betweeness_centrality` and reset it. -/
def bcNode (d : NodeData) : NodeData :=
  if 0 < d.dependency then
    { d with betweeness_centrality := d.betweeness_centrality + d.dependency,
             dependency := 0 }
  else d

/-- The BC accumulation superstep over `allNodesRange`. -/
def bcStep (g : Graph) (st : State g) : State g :=
  fun v => bcNode (st v)

/-! ### SSSP (the BFS phase, pull style)

`SSSP::operator()` walks the out-edges of `src`, computes
`new_dist = 1 + dist(dst)` and lowers `dist(src)` to `new_dist` when it is
smaller, bumping the work accumulator for each lowering.  `ssspEdges`
models the edge loop (the running first component is `src`'s
`current_length`, updated in place as the loop does; the second component
is the work contributed).  `SSSP::go` repeats the superstep until the
reduced accumulator reads zero. -/

/-- The edge loop of `SSSP::operator()` on one vertex. -/
def ssspEdges (g : Graph) (st : State g) : List (Fin g.n) → Nat → Nat × Nat
  | [], cur => (cur, 0)
  | t :: ts, cur =>
    if add32 1 (st t).current_length < cur then
      ((ssspEdges g st ts (add32 1 (st t).current_length)).1,
       (ssspEdges g st ts (add32 1 (st t).current_length)).2 + 1)
    else ssspEdges g st ts cur

/-- New `current_length` and work contribution of one vertex in one BFS
superstep. -/
def ssspNodeNew (g : Graph) (st : State g) (v : Fin g.n) : Nat × Nat :=
  ssspEdges g st (g.edges v) (st v).current_length

/-- One BFS superstep over `allNodesWithEdgesRange` (a vertex without
edges runs an empty loop, so the range guard is invisible), together with
the reduced value of the work accumulator. -/
def ssspStep (g : Graph) (st : State g) : State g × Nat :=
  (fun v => { st v with current_length := (ssspNodeNew g st v).1 },
   ∑ v, (ssspNodeNew g st v).2)

/-- Termination measure for the BFS loop: the sum of all distances. -/
def ssspMeasure (g : Graph) (st : State g) : Nat :=
  ∑ v, (st v).current_length

/-- Iterate `k` BFS supersteps applied in sequence. -/
def ssspIter (g : Graph) : Nat → State g → State g
  | 0, st => st
  | k + 1, st => ssspIter g k (ssspStep g st).1

/-! Termination prerequisites for the BFS loop: each superstep can only
lower distances, and a superstep with nonzero work strictly lowers their
sum. -/

theorem ssspEdges_fst_le (g : Graph) (st : State g) :
    ∀ (l : List (Fin g.n)) (cur : Nat), (ssspEdges g st l cur).1 ≤ cur := by
  intro l
  induction l with
  | nil => intro cur; exact le_rfl
  | cons t ts ih =>
    intro cur
    by_cases h : add32 1 (st t).current_length < cur
    · simpa [ssspEdges, h] using le_trans (ih _) h.le
    · simpa [ssspEdges, h] using ih cur

theorem ssspEdges_fst_lt (g : Graph) (st : State g) :
    ∀ (l : List (Fin g.n)) (cur : Nat), (ssspEdges g st l cur).2 ≠ 0 →
      (ssspEdges g st l cur).1 < cur := by
  intro l
  induction l with
  | nil => intro cur h; exact absurd rfl h
  | cons t ts ih =>
    intro cur h
    by_cases hc : add32 1 (st t).current_length < cur
    · simp only [ssspEdges, if_pos hc]
      exact lt_of_le_of_lt (ssspEdges_fst_le g st ts _) hc
    · simp only [ssspEdges, if_neg hc] at h ⊢
      exact ih cur h

theorem ssspStep_length_le (g : Graph) (st : State g) (v : Fin g.n) :
    ((ssspStep g st).1 v).current_length ≤ (st v).current_length :=
  ssspEdges_fst_le g st (g.edges v) _

theorem ssspMeasure_lt (g : Graph) (st : State g)
    (h : (ssspStep g st).2 ≠ 0) :
    ssspMeasure g (ssspStep g st).1 < ssspMeasure g st := by
  have hex : ∃ v, (ssspNodeNew g st v).2 ≠ 0 := by
    by_contra hc
    push_neg at hc
    apply h
    show (∑ v, (ssspNodeNew g st v).2) = 0
    exact Finset.sum_eq_zero fun v _ => hc v
  obtain ⟨v, hv⟩ := hex
  refine Finset.sum_lt_sum (fun i _ => ssspStep_length_le g st i)
    ⟨v, Finset.mem_univ v, ?_⟩
  exact ssspEdges_fst_lt g st (g.edges v) _ hv

/-- The loop `SSSP::go`: repeat the BFS superstep while the reduced accumulator is
nonzero (the code's `do { ... } while (accum_result)`; no `maxIterations`
check appears in it).  Returns the final state and the number of
supersteps executed.  Total because the distance sum strictly decreases
while work is done. -/
def ssspLoop (g : Graph) (st : State g) : State g × Nat :=
  if h : (ssspStep g st).2 = 0 then ((ssspStep g st).1, 1)
  else ((ssspLoop g (ssspStep g st).1).1,
        (ssspLoop g (ssspStep g st).1).2 + 1)
termination_by ssspMeasure g st
decreasing_by all_goals exact ssspMeasure_lt g st h

/-- The 3-path graph `2 → 1 → 0` (pull BFS propagates distances from
vertex `0` along reversed edges). -/
def pg3 : Graph := ⟨3, ![([] : List (Fin 3)), [0], [1]]⟩

/-- Initial BFS state on `pg3` with source `0`. -/
def st3 : State pg3 :=
  ![{ baseNode with current_length := 0 },
    { baseNode with current_length := infinity },
    { baseNode with current_length := infinity }]

/-! ### PredAndSucc (DAG predecessor/successor counting) -/

/-- The edge loop of `PredAndSucc::operator()` on one reached vertex:
`num_predecessors += 1` for every out-edge whose destination is one hop
closer (`dst.current_length + 1 == src.current_length`). -/
def pasEdges (g : Graph) (st : State g) (dv : Nat) :
    List (Fin g.n) → Nat → Nat
  | [], np => np
  | t :: ts, np =>
    if add32 (st t).current_length 1 = dv then
      pasEdges g st dv ts (add32 np 1)
    else pasEdges g st dv ts np

/-- Number of atomic `num_successors += 1` updates vertex `v` receives
during the `PredAndSucc` superstep: one per out-edge `(u, v)` of a reached
`u` with `dist(v) + 1 = dist(u)`. -/
def succCount (g : Graph) (st : State g) (v : Fin g.n) : Nat :=
  ∑ u, if (st u).current_length ≠ infinity then
         (g.edges u).countP
           (fun t => decide (t = v) &&
             decide (add32 (st t).current_length 1 = (st u).current_length))
       else 0

/-- The single `PredAndSucc` superstep (reduce-add and broadcast restore
the single-host values afterwards; a vertex with no out-edges runs an
empty loop, and its `num_successors` receives the neighbours' atomic
increments). -/
def predSuccStep (g : Graph) (st : State g) : State g := fun v =>
  { st v with
    num_predecessors :=
      if (st v).current_length ≠ infinity then
        pasEdges g st (st v).current_length (g.edges v)
          (st v).num_predecessors
      else (st v).num_predecessors,
    num_successors := iterAdd1 (st v).num_successors (succCount g st v) }

/-- Out-degree of `v` in the shortest-path DAG as the code selects it: the
out-edges `(v, t)` of a reached `v` with `dist(t) + 1 = dist(v)`. -/
def dagOut (g : Graph) (st : State g) (v : Fin g.n) : Nat :=
  if (st v).current_length ≠ infinity then
    (g.edges v).countP
      (fun t => decide (add32 (st t).current_length 1 = (st v).current_length))
  else 0

/-- Total number of DAG edges (under the code's criterion). -/
def dagEdgeCount (g : Graph) (st : State g) : Nat := ∑ v, dagOut g st v

/-- A BFS-converged state on `pg3` (distances `0, 1, 2`). -/
def stW : State pg3 :=
  ![{ baseNode with current_length := 0 },
    { baseNode with current_length := 1 },
    { baseNode with current_length := 2 }]

/-! ### NumShortestPaths (σ-phase) -/

/-- The edge loop of `NumShortestPaths::operator()` on one vertex: for
every out-edge whose destination has `propogation_flag` set and is one hop
closer, `trim += 1`, `to_add += dst.num_shortest_paths`, and one work unit
is accumulated.  The accumulator is `(trim, to_add, work)`. -/
def nspEdges (g : Graph) (st : State g) (dv : Nat) :
    List (Fin g.n) → Nat × Nat × Nat → Nat × Nat × Nat
  | [], acc => acc
  | t :: ts, acc =>
    if (st t).propogation_flag ∧ add32 (st t).current_length 1 = dv then
      nspEdges g st dv ts
        (add32 acc.1 1, add32 acc.2.1 (st t).num_shortest_paths,
         acc.2.2 + 1)
    else nspEdges g st dv ts acc

/-- Work contributed by one vertex in one σ-phase propagate superstep
(the `DGAccumulator_accum += 1` count of its edge loop; zero when the
vertex fails the `dist ≠ INF`, `npred > 0` guards). -/
def nspWorkAt (g : Graph) (st : State g) (v : Fin g.n) : Nat :=
  if (st v).current_length ≠ infinity ∧ 0 < (st v).num_predecessors then
    (nspEdges g st (st v).current_length (g.edges v)
      ((st v).trim, (st v).to_add, 0)).2.2
  else 0

/-- One σ-phase propagate superstep with the reduced work accumulator. -/
def nspStep (g : Graph) (st : State g) : State g × Nat :=
  (fun v =>
    if (st v).current_length ≠ infinity ∧ 0 < (st v).num_predecessors then
      { st v with
        trim := (nspEdges g st (st v).current_length (g.edges v)
          ((st v).trim, (st v).to_add, 0)).1,
        to_add := (nspEdges g st (st v).current_length (g.edges v)
          ((st v).trim, (st v).to_add, 0)).2.1 }
    else st v,
   ∑ u, nspWorkAt g st u)

/-- The operator `NSPTrim::operator()`: if `trim > 0`, subtract it from
`num_predecessors` and reset it. -/
def nspTrimNode (d : NodeData) : NodeData :=
  if 0 < d.trim then
    { d with num_predecessors := sub32 d.num_predecessors d.trim,
             trim := 0 }
  else d

/-- The superstep `NSPTrim::go` over `allNodesRange`. -/
def nspTrimStep (g : Graph) (st : State g) : State g :=
  fun v => nspTrimNode (st v)

/-- The operator `NSPAdd::operator()`: if `to_add > 0`, add it to
`num_shortest_paths` and reset it. -/
def nspAddNode (d : NodeData) : NodeData :=
  if 0 < d.to_add then
    { d with num_shortest_paths := add32 d.num_shortest_paths d.to_add,
             to_add := 0 }
  else d

/-- The superstep `NSPAdd::go` over `allNodesRange`. -/
def nspAddStep (g : Graph) (st : State g) : State g :=
  fun v => nspAddNode (st v)

/-- The operator `NumShortestPathsChanges::operator()`: the σ-phase flag update (the
one-shot `propogation_flag` token; its inner `assert(!propogation_flag)`
does not write). -/
def nspChangesNode (d : NodeData) : NodeData :=
  if d.current_length ≠ infinity then
    if d.num_predecessors = 0 ∧ d.propogation_flag then
      if d.num_successors ≠ 0 then
        { d with propogation_flag := false, num_short_paths_flag := true }
      else d
    else
      if d.num_predecessors = 0 ∧ d.num_short_paths_flag = false then
        { d with propogation_flag := true, num_short_paths_flag := true }
      else d
  else d

/-- The superstep `NumShortestPathsChanges::go` over `allNodesRange`. -/
def nspChangesStep (g : Graph) (st : State g) : State g :=
  fun v => nspChangesNode (st v)

/-- One round of `NumShortestPaths::go`: propagate, apply `trim`, apply
`to_add`, update flags; paired with the round's work accumulator. -/
def sigmaRound (g : Graph) (st : State g) : State g × Nat :=
  (nspChangesStep g (nspAddStep g (nspTrimStep g (nspStep g st).1)),
   (nspStep g st).2)

/-- The σ-phase `do { ... } while (accum_result)` loop, fuel-bounded (the
code's loop is unbounded; any fuel yields a state the bc/δ invariants hold
for). -/
def sigmaLoop (g : Graph) : Nat → State g → State g
  | 0, st => st
  | f + 1, st =>
    if (sigmaRound g st).2 = 0 then (sigmaRound g st).1
    else sigmaLoop g f (sigmaRound g st).1

/-- Number of σ-qualifying out-edges of `v`: destinations with the flag
set, one hop closer. -/
def nspMatchCount (g : Graph) (st : State g) (v : Fin g.n) : Nat :=
  (g.edges v).countP
    (fun t => (st t).propogation_flag &&
      decide (add32 (st t).current_length 1 = (st v).current_length))

/-- Sum of `num_shortest_paths` over the σ-qualifying out-edges of `v`. -/
def nspSigmaSum (g : Graph) (st : State g) (v : Fin g.n) : Nat :=
  (((g.edges v).filter
      (fun t => (st t).propogation_flag &&
        decide (add32 (st t).current_length 1 = (st v).current_length))).map
    (fun t => (st t).num_shortest_paths)).sum

/-- Vertex `0` of the σ-phase state `stS`: finalized source
(`sigma = 1`, flag set). -/
def nodeS0 : NodeData :=
  { baseNode with
    current_length := 0, num_shortest_paths := 1,
    propogation_flag := true }

/-- Vertex `1` of the state `stS`: reached, one unsettled predecessor. -/
def nodeS1 : NodeData :=
  { baseNode with current_length := 1, num_predecessors := 1 }

/-- Vertex `2` of the state `stS`: unreached. -/
def nodeS2 : NodeData :=
  { baseNode with current_length := infinity }

/-- A σ-phase state on `pg3`: vertex `0` finalized, vertex `1` reached
with one unsettled predecessor, vertex `2` unreached. -/
def stS : State pg3 := ![nodeS0, nodeS1, nodeS2]

/-- Vertex `1` of `pg3` (named so concrete statements elaborate). -/
def vS1 : Fin pg3.n := ⟨1, by decide⟩

/-! ### DependencyPropogation (δ-phase propagate) -/

/-- Guard of `DependencyPropogation::operator()` (run over
`allNodesWithEdgesRange`): the vertex has out-edges, is reached, and holds
the propagation token. -/
def depActive (g : Graph) (st : State g) (v : Fin g.n) : Prop :=
  g.edges v ≠ [] ∧ (st v).current_length ≠ infinity ∧
    (st v).propogation_flag = true

instance (g : Graph) (st : State g) (v : Fin g.n) :
    Decidable (depActive g st v) :=
  inferInstanceAs (Decidable (_ ∧ _ ∧ _))

/-- Occurrences of `t` among the qualifying out-edge destinations of `v`
in the δ-phase: destinations whose global id is the current source are
skipped (`continue`), the rest qualify when one hop closer. -/
def depMatchCount (g : Graph) (srcid : Nat) (st : State g)
    (v t : Fin g.n) : Nat :=
  (g.edges v).countP
    (fun u => decide (u = t) && !decide (u.val = srcid) &&
      decide (add32 (st u).current_length 1 = (st v).current_length))

/-- Number of atomic `trim2 += 1` updates vertex `t` receives in one
δ-phase propagate superstep. -/
def depTrimCount (g : Graph) (srcid : Nat) (st : State g)
    (t : Fin g.n) : Nat :=
  ∑ v, if depActive g st v then depMatchCount g srcid st v t else 0

/-- The value the code adds (atomically) to `to_add_float(t)` for each
qualifying edge `(v, t)`:
`((float)sigma(t) / (float)sigma(v)) * (float)(1.0 + dep)` where
`uint32_t dep = src_data.dependency` — the float dependency truncated to
an unsigned integer. -/
def depAddVal (g : Graph) (st : State g) (v t : Fin g.n) : ℚ :=
  (((st t).num_shortest_paths : ℚ) / ((st v).num_shortest_paths : ℚ)) *
    (1 + (truncF (st v).dependency : ℚ))

/-- Total contribution `to_add_float(t)` receives in one δ-phase
propagate superstep (`ℚ` addition is commutative, so the interleaving of
the atomic adds does not matter). -/
def depAddInc (g : Graph) (srcid : Nat) (st : State g)
    (t : Fin g.n) : ℚ :=
  ∑ v, if depActive g st v then
         (depMatchCount g srcid st v t : ℚ) * depAddVal g st v t
       else 0

/-- Work units one vertex contributes to the δ-phase accumulator: one per
qualifying out-edge when active, none otherwise. -/
def depWorkAt (g : Graph) (srcid : Nat) (st : State g)
    (v : Fin g.n) : Nat :=
  if depActive g st v then
    (g.edges v).countP
      (fun u => !decide (u.val = srcid) &&
        decide (add32 (st u).current_length 1 = (st v).current_length))
  else 0

/-- One δ-phase propagate superstep: every active vertex adds `1` to
`trim2(t)` and `depAddVal` to `to_add_float(t)` for each qualifying
out-edge `(v, t)`, then clears its `propogation_flag` and sets
`dep_prop_flag`; paired with the reduced work accumulator.  The
operator's `assert(num_successors == 0)` (reachable only when an active
vertex still has successors) does not write; it is the separate check
`depAssertOk`. -/
def depPropStep (g : Graph) (srcid : Nat) (st : State g) :
    State g × Nat :=
  (fun t =>
    if depActive g st t then
      { st t with
        trim2 := iterAdd1 (st t).trim2 (depTrimCount g srcid st t),
        to_add_float := (st t).to_add_float + depAddInc g srcid st t,
        propogation_flag := false, dep_prop_flag := true }
    else
      { st t with
        trim2 := iterAdd1 (st t).trim2 (depTrimCount g srcid st t),
        to_add_float := (st t).to_add_float + depAddInc g srcid st t },
   ∑ v, depWorkAt g srcid st v)

/-- The δ-phase propagate assert: an active vertex is a leaf of the
remaining DAG. -/
def depAssertOk (g : Graph) (st : State g) : Prop :=
  ∀ v, depActive g st v → (st v).num_successors = 0

/-- Modelled from the spec (§4.6): the dependency contribution
`(sigma(t)/sigma(s)) · (1 + delta(s))` with `delta` read as the real
(float) value.  Used only to compare with the code's `depAddVal`. -/
def specDeltaContrib (g : Graph) (st : State g) (v t : Fin g.n) : ℚ :=
  (((st t).num_shortest_paths : ℚ) / ((st v).num_shortest_paths : ℚ)) *
    (1 + (st v).dependency)

/-- The operator `DependencyPropChanges::operator()`: reached DAG leaves that have not
yet propagated get the token. -/
def depChangesNode (d : NodeData) : NodeData :=
  if d.current_length ≠ infinity then
    if d.num_successors = 0 ∧ d.dep_prop_flag = false then
      { d with propogation_flag := true, dep_prop_flag := true }
    else d
  else d

/-- The superstep `DependencyPropChanges::go` over `allNodesWithEdgesRange`. -/
def depChangesStep (g : Graph) (st : State g) : State g :=
  fun v => if g.edges v ≠ [] then depChangesNode (st v) else st v

/-- One round of `DependencyPropogation::go`: propagate, apply `trim2`
(`DPTrim`), apply `to_add_float` (`DPAdd`), update flags. -/
def deltaRound (g : Graph) (srcid : Nat) (st : State g) :
    State g × Nat :=
  (depChangesStep g
     (dpAddStep g (dpTrimStep g (depPropStep g srcid st).1)),
   (depPropStep g srcid st).2)

/-- The δ-phase `do { ... } while (accum_result)` loop, fuel-bounded. -/
def deltaLoop (g : Graph) (srcid : Nat) : Nat → State g → State g
  | 0, st => st
  | f + 1, st =>
    if (deltaRound g srcid st).2 = 0 then (deltaRound g srcid st).1
    else deltaLoop g srcid f (deltaRound g srcid st).1

/-- The δ-phase example graph: two vertices, one edge `1 → 0`. -/
def pgD : Graph := ⟨2, ![([] : List (Fin 2)), [0]]⟩

/-- Vertex `0` of `stD`: the predecessor (`dist 1`, `sigma 1`). -/
def nodeD0 : NodeData :=
  { baseNode with current_length := 1, num_shortest_paths := 1 }

/-- Vertex `1` of `stD`: an active DAG leaf with `sigma 2` and the
fractional dependency `1/2` accumulated from its successors. -/
def nodeD1 : NodeData :=
  { baseNode with
    current_length := 2, num_shortest_paths := 2,
    propogation_flag := true, dependency := 1/2 }

/-- A δ-phase state in which vertex `1` propagates to vertex `0`. -/
def stD : State pgD := ![nodeD0, nodeD1]

/-- Vertex `0` of `pgD`. -/
def vD0 : Fin pgD.n := ⟨0, by decide⟩

/-- Vertex `1` of `pgD`. -/
def vD1 : Fin pgD.n := ⟨1, by decide⟩

/-! ### The per-source pipeline (the loop body of `BC::go`) -/

/-- All phases of one source iteration before the BC accumulation:
per-source reset, BFS loop, Pred/Succ superstep, σ-phase loop, δ-phase
loop (the last two fuel-bounded; `BC::go` runs them to convergence). -/
def phasesBeforeBC (g : Graph) (srcid fS fD : Nat) (st : State g) :
    State g :=
  deltaLoop g srcid fD
    (sigmaLoop g fS
      (predSuccStep g
        (ssspLoop g (initItStep g srcid st)).1))

/-- One full source iteration of `BC::go`: the four phases followed by
the BC accumulation superstep. -/
def sourceIteration (g : Graph) (srcid fS fD : Nat) (st : State g) :
    State g :=
  bcStep g (phasesBeforeBC g srcid fS fD st)

/-- The driver loop of `BC::go` over a list of sources (each entry also
carries the σ/δ fuels of that iteration). -/
def runSources (g : Graph) : List (Nat × Nat × Nat) → State g → State g
  | [], st => st
  | p :: ps, st => runSources g ps (sourceIteration g p.1 p.2.1 p.2.2 st)

/-! ### Source selection (`main`) -/

/-- One step of `std::minstd_rand0`: `x ↦ 16807·x mod (2^31 − 1)`. -/
def minstd0Next (x : Nat) : Nat := 16807 * x % 2147483647

/-- The `while (random_sources.size() < numberOfSources)` loop of `main`,
fuel-bounded.  `drw` maps a generator state to the drawn vertex id and
the next generator state (`std::uniform_int_distribution<uint64_t>` over
the generator; its value mapping is standard-library-defined, so it is a
parameter).  Returns `none` when `fuel` draws did not reach `k`
elements. -/
def buildSources (drw : Nat → Nat × Nat) (k : Nat) :
    Nat → Nat → Finset Nat → Option (Finset Nat)
  | 0, _, s => if k ≤ s.card then some s else none
  | f + 1, gst, s =>
    if k ≤ s.card then some s
    else buildSources drw k f (drw gst).2 (insert (drw gst).1 s)

/-- The source selection of `main` for `numberOfSources = k`: nothing is
drawn when `k = 0`; otherwise the generator is seeded with the literal
`100`, `startSource` is inserted, and draws are inserted until the set
has `k` elements. -/
def randomSources (drw : Nat → Nat × Nat) (startS k fuel : Nat) :
    Option (Finset Nat) :=
  if k = 0 then some ∅ else buildSources drw k fuel 100 {startS}

/-- The first `fuel` values drawn from generator state `gst`. -/
def drawList (drw : Nat → Nat × Nat) : Nat → Nat → List Nat
  | _, 0 => []
  | gst, f + 1 => (drw gst).1 :: drawList drw (drw gst).2 f

/-- The iteration order of the driver over `random_sources`: a
`std::set` iterates in ascending key order. -/
def sourceSeq (S : Finset Nat) : List Nat := S.sort (· ≤ ·)

/-- A concrete draw function for witnesses: `minstd_rand0` with the drawn
value reduced mod `10` (a 10-vertex graph). -/
def drwTen (gst : Nat) : Nat × Nat := (minstd0Next gst % 10, minstd0Next gst)

/-! ### Claim C2 — the δ-phase trim-apply resets `trim`, not `trim2` -/

/-- C2: the claim states that `DPTrim` resets `trim2(v)` to `0`, so that
after the apply superstep `trim2(v) = 0` for every vertex.  On a node with
`trim2 = 1`, `num_successors = 3`, `trim = 7` the operator does decrease
`num_successors` by `trim2` (to `2`), but it resets `trim` (to `0`) and
leaves `trim2 = 1 ≠ 0`: the reset hits the wrong field (the copy-paste bug
the spec's §9 "Open questions" flags). -/
theorem c2_dptrim_keeps_trim2 :
    (dpTrimNode { baseNode with
        trim2 := 1, num_successors := 3, trim := 7 }).num_successors = 2 ∧
    (dpTrimNode { baseNode with
        trim2 := 1, num_successors := 3, trim := 7 }).trim = 0 ∧
    (dpTrimNode { baseNode with
        trim2 := 1, num_successors := 3, trim := 7 }).trim2 = 1 := by
  decide

/-! ### Claim C4 — the per-source reset and its assertion placement -/

/-- C4 counterexample: the claim states the assertions `npred == 0` and
`nsucc == 0` are checked before any zeroing of those fields.  On a node
entering the reset with `num_successors = 5` (and `num_predecessors = 0`)
a before-the-zeroing check fails (`specInitItAssert = false`), but the
code's assert — evaluated after `num_successors = 0` — passes, because the
reset zeroes `num_successors` first. -/
theorem c4_counterexample_assert_after_zeroing :
    ({ baseNode with num_successors := 5 } : NodeData).num_successors = 5 ∧
    initItAssertOk 0 1 { baseNode with num_successors := 5 } = true ∧
    specInitItAssert { baseNode with num_successors := 5 } = false ∧
    (initItNode 0 1 { baseNode with num_successors := 5 }).num_successors
      = 0 := by
  decide

/-- C4 (amended): after `InitializeIteration` every replica has
`num_successors = 0` and both done-flags false; the replica whose global id
equals the source gets `(dist, sigma, prop_flag) = (0, 1, true)` and every
other replica `(infinity, 0, false)`; `num_predecessors` is never written
(it is only asserted to be `0`), and the `nsucc` assertion is evaluated
only after `num_successors` has been zeroed, so the assert pair passes
exactly when `num_predecessors = 0` on entry. -/
theorem c4_amended_initialize_iteration (srcid gid : Nat) (d : NodeData) :
    (initItNode srcid gid d).num_successors = 0 ∧
    (initItNode srcid gid d).num_short_paths_flag = false ∧
    (initItNode srcid gid d).dep_prop_flag = false ∧
    (initItNode srcid gid d).num_predecessors = d.num_predecessors ∧
    (gid = srcid →
      (initItNode srcid gid d).current_length = 0 ∧
      (initItNode srcid gid d).num_shortest_paths = 1 ∧
      (initItNode srcid gid d).propogation_flag = true) ∧
    (gid ≠ srcid →
      (initItNode srcid gid d).current_length = infinity ∧
      (initItNode srcid gid d).num_shortest_paths = 0 ∧
      (initItNode srcid gid d).propogation_flag = false) ∧
    (initItAssertOk srcid gid d = true ↔ d.num_predecessors = 0) := by
  unfold initItNode initItAssertOk
  by_cases h : gid = srcid <;>
    simp [h, decide_eq_true_iff]

/-- C4 witness: the amended statement instantiated at the source vertex
(`gid = srcid = 0`) of a fresh node. -/
theorem c4_witness :
    (initItNode 0 0 baseNode).num_successors = 0 ∧
    (initItNode 0 0 baseNode).current_length = 0 ∧
    (initItNode 0 0 baseNode).num_shortest_paths = 1 ∧
    (initItNode 0 0 baseNode).propogation_flag = true ∧
    initItAssertOk 0 0 baseNode = true := by
  obtain ⟨h1, _, _, _, h5, _, h7⟩ := c4_amended_initialize_iteration 0 0 baseNode
  obtain ⟨h5a, h5b, h5c⟩ := h5 rfl
  exact ⟨h1, h5a, h5b, h5c, h7.mpr rfl⟩

/-! ### BFS loop lemmas and claims C3, C7 -/

theorem ssspEdges_snd_zero (g : Graph) (st : State g) :
    ∀ (l : List (Fin g.n)) (cur : Nat), (ssspEdges g st l cur).2 = 0 →
      (ssspEdges g st l cur).1 = cur := by
  intro l
  induction l with
  | nil => intro cur _; rfl
  | cons t ts ih =>
    intro cur h
    by_cases hc : add32 1 (st t).current_length < cur
    · simp only [ssspEdges, if_pos hc] at h
      exact absurd h (Nat.succ_ne_zero _)
    · simp only [ssspEdges, if_neg hc] at h ⊢
      exact ih cur h

theorem ssspStep_zero_fix (g : Graph) (st : State g)
    (h : (ssspStep g st).2 = 0) : (ssspStep g st).1 = st := by
  have hsum : (∑ v, (ssspNodeNew g st v).2) = 0 := h
  funext v
  have hv : (ssspNodeNew g st v).2 = 0 :=
    Finset.sum_eq_zero_iff.mp hsum v (Finset.mem_univ v)
  have hv1 : (ssspNodeNew g st v).1 = (st v).current_length :=
    ssspEdges_snd_zero g st (g.edges v) ((st v).current_length) hv
  show { st v with current_length := (ssspNodeNew g st v).1 } = st v
  rw [hv1]

theorem ssspLoop_base (g : Graph) (st : State g)
    (h : (ssspStep g st).2 = 0) :
    ssspLoop g st = ((ssspStep g st).1, 1) := by
  rw [ssspLoop]
  exact dif_pos h

theorem ssspLoop_rec (g : Graph) (st : State g)
    (h : (ssspStep g st).2 ≠ 0) :
    ssspLoop g st = ((ssspLoop g (ssspStep g st).1).1,
                     (ssspLoop g (ssspStep g st).1).2 + 1) := by
  rw [ssspLoop]
  exact dif_neg h

theorem ssspLoop_exit_aux (g : Graph) :
    ∀ (n : Nat) (st : State g), ssspMeasure g st ≤ n →
      (ssspStep g (ssspLoop g st).1).2 = 0 := by
  intro n
  induction n with
  | zero =>
    intro st hst
    by_cases h : (ssspStep g st).2 = 0
    · rw [ssspLoop_base g st h]
      show (ssspStep g (ssspStep g st).1).2 = 0
      rw [ssspStep_zero_fix g st h]
      exact h
    · exact absurd (lt_of_lt_of_le (ssspMeasure_lt g st h) hst)
        (Nat.not_lt_zero _)
  | succ n ih =>
    intro st hst
    by_cases h : (ssspStep g st).2 = 0
    · rw [ssspLoop_base g st h]
      show (ssspStep g (ssspStep g st).1).2 = 0
      rw [ssspStep_zero_fix g st h]
      exact h
    · rw [ssspLoop_rec g st h]
      exact ih (ssspStep g st).1
        (Nat.le_of_lt_succ (lt_of_lt_of_le (ssspMeasure_lt g st h) hst))

theorem ssspLoop_exit (g : Graph) (st : State g) :
    (ssspStep g (ssspLoop g st).1).2 = 0 :=
  ssspLoop_exit_aux g (ssspMeasure g st) st le_rfl

theorem ssspIter_exit_aux (g : Graph) :
    ∀ (n : Nat) (st : State g), ssspMeasure g st ≤ n →
      ∃ k, (ssspStep g (ssspIter g k st)).2 = 0 := by
  intro n
  induction n with
  | zero =>
    intro st hst
    by_cases h : (ssspStep g st).2 = 0
    · exact ⟨0, h⟩
    · exact absurd (lt_of_lt_of_le (ssspMeasure_lt g st h) hst)
        (Nat.not_lt_zero _)
  | succ n ih =>
    intro st hst
    by_cases h : (ssspStep g st).2 = 0
    · exact ⟨0, h⟩
    · obtain ⟨k, hk⟩ := ih (ssspStep g st).1
        (Nat.le_of_lt_succ (lt_of_lt_of_le (ssspMeasure_lt g st h) hst))
      exact ⟨k + 1, hk⟩

theorem ssspLoop_length_aux (g : Graph) :
    ∀ (n : Nat) (st : State g), ssspMeasure g st ≤ n → ∀ v,
      ((ssspLoop g st).1 v).current_length ≤ (st v).current_length := by
  intro n
  induction n with
  | zero =>
    intro st hst v
    by_cases h : (ssspStep g st).2 = 0
    · rw [ssspLoop_base g st h]
      exact ssspStep_length_le g st v
    · exact absurd (lt_of_lt_of_le (ssspMeasure_lt g st h) hst)
        (Nat.not_lt_zero _)
  | succ n ih =>
    intro st hst v
    by_cases h : (ssspStep g st).2 = 0
    · rw [ssspLoop_base g st h]
      exact ssspStep_length_le g st v
    · rw [ssspLoop_rec g st h]
      exact le_trans
        (ih (ssspStep g st).1
          (Nat.le_of_lt_succ (lt_of_lt_of_le (ssspMeasure_lt g st h) hst)) v)
        (ssspStep_length_le g st v)

/-- C7: the BFS superstep loop terminates on every finite graph and every
state.  Some finite number of supersteps reaches a superstep whose work
accumulator reads zero; the state `SSSP::go` returns is exactly such a
state (the loop exits when the accumulator reads zero at the end of a
superstep); and distances never increase, each update strictly decreasing
the updated `dist` (the measure argument behind `ssspLoop`'s
totality, `ssspMeasure_lt`). -/
theorem c7_bfs_terminates (g : Graph) (st : State g) :
    (∃ k, (ssspStep g (ssspIter g k st)).2 = 0) ∧
    (ssspStep g (ssspLoop g st).1).2 = 0 ∧
    (∀ v, ((ssspLoop g st).1 v).current_length ≤ (st v).current_length) :=
  ⟨ssspIter_exit_aux g (ssspMeasure g st) st le_rfl,
   ssspLoop_exit g st,
   ssspLoop_length_aux g (ssspMeasure g st) st le_rfl⟩

/-- C3 counterexample: with `maxIterations` configured to `1`, the BFS
phase on the 3-path runs `3` supersteps — more than the cap — and
completes normally; no fatal error exists on this path of the code (the
loop consults only the work accumulator). -/
theorem c3_counterexample_ignores_cap :
    (ssspLoop pg3 st3).2 = 3 ∧ 1 < (ssspLoop pg3 st3).2 := by
  have h0 : (ssspStep pg3 st3).2 ≠ 0 := by decide
  have h1 : (ssspStep pg3 (ssspStep pg3 st3).1).2 ≠ 0 := by decide
  have h2 :
      (ssspStep pg3 (ssspStep pg3 (ssspStep pg3 st3).1).1).2 = 0 := by
    decide
  rw [ssspLoop_rec _ _ h0, ssspLoop_rec _ _ h1, ssspLoop_base _ _ h2]
  exact ⟨rfl, by norm_num⟩

/-- C3 (amended): no phase checks `maxIterations`.  The BFS loop runs at
least one superstep and exits exactly when the work accumulator reads
zero at the end of a superstep, however many supersteps that takes, and
never signals an error. -/
theorem c3_amended_no_cap_check (g : Graph) (st : State g) :
    (ssspStep g (ssspLoop g st).1).2 = 0 ∧ 1 ≤ (ssspLoop g st).2 := by
  refine ⟨ssspLoop_exit g st, ?_⟩
  by_cases h : (ssspStep g st).2 = 0
  · rw [ssspLoop_base g st h]
  · rw [ssspLoop_rec g st h]
    exact Nat.le_add_left 1 _

/-! ### PredAndSucc lemmas and claim C5 -/

theorem iterAdd1_eq_of_lt (a : Nat) :
    ∀ (k : Nat), a + k < U32 → iterAdd1 a k = a + k := by
  intro k
  induction k with
  | zero => intro _; rfl
  | succ k ih =>
    intro h
    show add32 (iterAdd1 a k) 1 = a + (k + 1)
    rw [ih (by omega)]
    show (a + k + 1) % U32 = a + (k + 1)
    rw [Nat.mod_eq_of_lt (by omega)]
    omega

theorem pasEdges_spec (g : Graph) (st : State g) (dv : Nat) :
    ∀ (l : List (Fin g.n)) (np : Nat),
      np + l.countP
        (fun t => decide (add32 (st t).current_length 1 = dv)) < U32 →
      pasEdges g st dv l np
        = np + l.countP
            (fun t => decide (add32 (st t).current_length 1 = dv)) := by
  intro l
  induction l with
  | nil => intro np _; simp [pasEdges]
  | cons t ts ih =>
    intro np h
    by_cases hc : add32 (st t).current_length 1 = dv
    · rw [List.countP_cons_of_pos _ _ (by simpa using hc)] at h ⊢
      simp only [pasEdges, if_pos hc]
      have h1 : add32 np 1 = np + 1 := Nat.mod_eq_of_lt (by omega)
      rw [h1, ih (np + 1) (by omega)]
      omega
    · rw [List.countP_cons_of_neg _ _ (by simpa using hc)] at h ⊢
      simp only [pasEdges, if_neg hc]
      exact ih np h

theorem countP_sum_eq {n : Nat} (p : Fin n → Bool) (l : List (Fin n)) :
    (∑ v, l.countP (fun t => decide (t = v) && p t)) = l.countP p := by
  induction l with
  | nil => simp
  | cons a l ih =>
    simp only [List.countP_cons, Finset.sum_add_distrib, ih]
    by_cases hp : p a = true
    · simp [hp, Finset.sum_ite_eq]
    · simp [hp]

theorem succCount_sum (g : Graph) (st : State g) :
    (∑ v, succCount g st v) = dagEdgeCount g st := by
  unfold succCount dagEdgeCount dagOut
  rw [Finset.sum_comm]
  refine Finset.sum_congr rfl fun u _ => ?_
  by_cases hu : (st u).current_length ≠ infinity
  · simp only [if_pos hu]
    exact countP_sum_eq
      (fun t => decide (add32 (st t).current_length 1
        = (st u).current_length)) (g.edges u)
  · simp [if_neg hu]

theorem dagOut_le_total (g : Graph) (st : State g) (v : Fin g.n) :
    dagOut g st v ≤ dagEdgeCount g st :=
  Finset.single_le_sum (fun i _ => Nat.zero_le (dagOut g st i))
    (Finset.mem_univ v)

theorem succCount_le_total (g : Graph) (st : State g) (v : Fin g.n) :
    succCount g st v ≤ dagEdgeCount g st := by
  rw [← succCount_sum g st]
  exact Finset.single_le_sum (fun i _ => Nat.zero_le (succCount g st i))
    (Finset.mem_univ v)

/-- C5: starting from zeroed counters, the `PredAndSucc` superstep gives
every reached vertex `num_predecessors` equal to its DAG out-degree (under
the code's pull orientation) and every vertex `num_successors` equal to
the number of DAG edges pointing at it from reached vertices — no other
edge causes an increment — and the two counters sum to the same total, the
number of DAG edges. -/
theorem c5_pred_succ (g : Graph) (st : State g)
    (h0 : ∀ v, (st v).num_predecessors = 0 ∧ (st v).num_successors = 0)
    (hE : dagEdgeCount g st < U32) :
    (∀ v, (predSuccStep g st v).num_predecessors = dagOut g st v) ∧
    (∀ v, (predSuccStep g st v).num_successors = succCount g st v) ∧
    (∑ v, (predSuccStep g st v).num_predecessors) = dagEdgeCount g st ∧
    (∑ v, (predSuccStep g st v).num_successors) = dagEdgeCount g st := by
  have hnp : ∀ v, (predSuccStep g st v).num_predecessors = dagOut g st v := by
    intro v
    show (if (st v).current_length ≠ infinity then
            pasEdges g st (st v).current_length (g.edges v)
              (st v).num_predecessors
          else (st v).num_predecessors) = dagOut g st v
    by_cases hv : (st v).current_length ≠ infinity
    · rw [if_pos hv, (h0 v).1, pasEdges_spec g st _ (g.edges v) 0 ?_]
      · unfold dagOut
        rw [if_pos hv]
        omega
      · have := dagOut_le_total g st v
        unfold dagOut at this
        rw [if_pos hv] at this
        omega
    · rw [if_neg hv, (h0 v).1]
      unfold dagOut
      rw [if_neg hv]
  have hns : ∀ v, (predSuccStep g st v).num_successors = succCount g st v := by
    intro v
    show iterAdd1 (st v).num_successors (succCount g st v) = succCount g st v
    rw [(h0 v).2, iterAdd1_eq_of_lt 0 (succCount g st v)
      (by have := succCount_le_total g st v; omega)]
    omega
  refine ⟨hnp, hns, ?_, ?_⟩
  · rw [Finset.sum_congr rfl fun v _ => hnp v]
    rfl
  · rw [Finset.sum_congr rfl fun v _ => hns v]
    exact succCount_sum g st

/-- C5 witness: the converged 3-path state; both counters sum to the two
DAG edges. -/
theorem c5_witness :
    ((∀ v, (stW v).num_predecessors = 0 ∧ (stW v).num_successors = 0) ∧
      dagEdgeCount pg3 stW < U32) ∧
    (∑ v, (predSuccStep pg3 stW v).num_predecessors)
      = dagEdgeCount pg3 stW ∧
    (∑ v, (predSuccStep pg3 stW v).num_successors)
      = dagEdgeCount pg3 stW := by
  have h0 : ∀ v, (stW v).num_predecessors = 0 ∧ (stW v).num_successors = 0 := by
    decide
  have hE : dagEdgeCount pg3 stW < U32 := by decide
  obtain ⟨-, -, h4, h5⟩ := c5_pred_succ pg3 stW h0 hE
  exact ⟨⟨h0, hE⟩, h4, h5⟩

/-! ### σ-phase propagate lemmas and claim C6 -/

theorem nspEdges_work (g : Graph) (st : State g) (dv : Nat) :
    ∀ (l : List (Fin g.n)) (acc : Nat × Nat × Nat),
      (nspEdges g st dv l acc).2.2
        = acc.2.2 + l.countP
            (fun t => (st t).propogation_flag &&
              decide (add32 (st t).current_length 1 = dv)) := by
  intro l
  induction l with
  | nil => intro acc; simp [nspEdges]
  | cons t ts ih =>
    intro acc
    by_cases hc :
        (st t).propogation_flag ∧ add32 (st t).current_length 1 = dv
    · rw [List.countP_cons_of_pos _ _ (by simp [hc.1, hc.2])]
      simp only [nspEdges, if_pos hc, ih]
      omega
    · rw [List.countP_cons_of_neg _ _ (by simpa [Decidable.not_and_iff_or_not] using hc)]
      simp only [nspEdges, if_neg hc, ih]

theorem nspEdges_vals (g : Graph) (st : State g) (dv : Nat) :
    ∀ (l : List (Fin g.n)) (tr ta w : Nat),
      tr + l.countP
        (fun t => (st t).propogation_flag &&
          decide (add32 (st t).current_length 1 = dv)) < U32 →
      ta + ((l.filter
        (fun t => (st t).propogation_flag &&
          decide (add32 (st t).current_length 1 = dv))).map
          (fun t => (st t).num_shortest_paths)).sum < U32 →
      (nspEdges g st dv l (tr, ta, w)).1
        = tr + l.countP
            (fun t => (st t).propogation_flag &&
              decide (add32 (st t).current_length 1 = dv)) ∧
      (nspEdges g st dv l (tr, ta, w)).2.1
        = ta + ((l.filter
            (fun t => (st t).propogation_flag &&
              decide (add32 (st t).current_length 1 = dv))).map
            (fun t => (st t).num_shortest_paths)).sum := by
  intro l
  induction l with
  | nil => intro tr ta w _ _; simp [nspEdges]
  | cons t ts ih =>
    intro tr ta w h1 h2
    by_cases hc :
        (st t).propogation_flag ∧ add32 (st t).current_length 1 = dv
    · have hb : ((st t).propogation_flag &&
          decide (add32 (st t).current_length 1 = dv)) = true := by
        simp [hc.1, hc.2]
      rw [List.countP_cons_of_pos _ _ (by exact hb)] at h1 ⊢
      rw [List.filter_cons_of_pos (by exact hb)] at h2 ⊢
      simp only [List.map_cons, List.sum_cons] at h2 ⊢
      simp only [nspEdges, if_pos hc]
      have ha1 : add32 tr 1 = tr + 1 := Nat.mod_eq_of_lt (by omega)
      have ha2 : add32 ta (st t).num_shortest_paths
          = ta + (st t).num_shortest_paths := Nat.mod_eq_of_lt (by omega)
      rw [ha1, ha2]
      obtain ⟨e1, e2⟩ := ih (tr + 1) (ta + (st t).num_shortest_paths)
        (w + 1) (by omega) (by omega)
      exact ⟨by rw [e1]; omega, by rw [e2]; omega⟩
    · have hb : ¬ ((st t).propogation_flag &&
          decide (add32 (st t).current_length 1 = dv)) = true := by
        simp only [Bool.and_eq_true, decide_eq_true_eq]
        exact fun h => hc ⟨h.1, h.2⟩
      rw [List.countP_cons_of_neg _ _ (by exact hb)] at h1 ⊢
      rw [List.filter_cons_of_neg (by exact hb)] at h2 ⊢
      simp only [nspEdges, if_neg hc]
      exact ih tr ta w h1 h2

/-- C6: in the σ-phase propagate superstep, a vertex `s` with
`dist(s) ≠ INF` and `npred(s) > 0` has `trim` increased by one and
`to_add` increased by `sigma(t)` for each out-edge `(s, t)` with
`prop_flag(t)` set and `dist(t) + 1 = dist(s)`, and contributes exactly
that many units to the global work accumulator; a vertex with
`dist = INF` or `npred = 0` is unchanged and contributes no work; the
accumulator is the sum of the per-vertex work. -/
theorem c6_sigma_propagate (g : Graph) (st : State g) (v : Fin g.n)
    (h1 : (st v).trim + nspMatchCount g st v < U32)
    (h2 : (st v).to_add + nspSigmaSum g st v < U32) :
    (((st v).current_length ≠ infinity ∧ 0 < (st v).num_predecessors) →
      ((nspStep g st).1 v).trim = (st v).trim + nspMatchCount g st v ∧
      ((nspStep g st).1 v).to_add = (st v).to_add + nspSigmaSum g st v ∧
      nspWorkAt g st v = nspMatchCount g st v) ∧
    (((st v).current_length = infinity ∨ (st v).num_predecessors = 0) →
      (nspStep g st).1 v = st v ∧ nspWorkAt g st v = 0) ∧
    (nspStep g st).2 = ∑ u, nspWorkAt g st u := by
  refine ⟨?_, ?_, rfl⟩
  · intro hA
    obtain ⟨e1, e2⟩ := nspEdges_vals g st (st v).current_length
      (g.edges v) (st v).trim (st v).to_add 0 h1 h2
    have hwork := nspEdges_work g st (st v).current_length (g.edges v)
      ((st v).trim, (st v).to_add, 0)
    constructor
    · show (if (st v).current_length ≠ infinity ∧
          0 < (st v).num_predecessors then _ else st v).trim = _
      rw [if_pos hA]
      exact e1
    constructor
    · show (if (st v).current_length ≠ infinity ∧
          0 < (st v).num_predecessors then _ else st v).to_add = _
      rw [if_pos hA]
      exact e2
    · unfold nspWorkAt
      rw [if_pos hA, hwork]
      show 0 + _ = _
      rw [Nat.zero_add]
      rfl
  · intro hI
    have hA : ¬ ((st v).current_length ≠ infinity ∧
        0 < (st v).num_predecessors) := by
      rcases hI with h | h
      · exact fun hc => hc.1 h
      · exact fun hc => by omega
    constructor
    · show (if (st v).current_length ≠ infinity ∧
          0 < (st v).num_predecessors then _ else st v) = st v
      rw [if_neg hA]
    · unfold nspWorkAt
      rw [if_neg hA]

/-- C6 witness: on the σ-phase state `stS`, vertex `1` (one ready
predecessor, vertex `0` with `sigma = 1`) gets `trim = 1`, `to_add = 1`
and records one work unit. -/
theorem c6_witness :
    ((stS vS1).trim + nspMatchCount pg3 stS vS1 < U32) ∧
    ((nspStep pg3 stS).1 vS1).trim
      = (stS vS1).trim + nspMatchCount pg3 stS vS1 ∧
    ((nspStep pg3 stS).1 vS1).to_add
      = (stS vS1).to_add + nspSigmaSum pg3 stS vS1 ∧
    nspWorkAt pg3 stS vS1 = nspMatchCount pg3 stS vS1 := by
  have h1 : (stS vS1).trim + nspMatchCount pg3 stS vS1 < U32 := by decide
  have h2 : (stS vS1).to_add + nspSigmaSum pg3 stS vS1 < U32 := by decide
  have hA : (stS vS1).current_length ≠ infinity ∧
      0 < (stS vS1).num_predecessors := by decide
  obtain ⟨ha, -, -⟩ := c6_sigma_propagate pg3 stS vS1 h1 h2
  exact ⟨h1, ha hA⟩

/-! ### Claim C1 — the δ-phase propagate truncates the dependency -/

/-- C1: the claim states the δ-phase propagate adds exactly
`(sigma(t)/sigma(s)) · (1 + delta(s))` to `to_add_f(t)`.  On `stD`
(vertex `1` active with `sigma = 2` and `delta = 1/2`, propagating over
the edge `1 → 0` to vertex `0` with `sigma = 1`), the code does add `1` to
`trim2(0)` atomically and clears `prop_flag(1)`, and divides in floating
point — but `uint32_t dep = src_data.dependency` truncates `delta = 1/2`
to `0`, so the value added is `(1/2)·(1 + 0) = 1/2`, not the claimed
`(1/2)·(1 + 1/2) = 3/4`. -/
theorem c1_dependency_truncated :
    ((depPropStep pgD 5 stD).1 vD0).trim2 = 1 ∧
    ((depPropStep pgD 5 stD).1 vD1).propogation_flag = false ∧
    ((depPropStep pgD 5 stD).1 vD0).to_add_float = 1/2 ∧
    specDeltaContrib pgD stD vD1 vD0 = 3/4 ∧
    ((depPropStep pgD 5 stD).1 vD0).to_add_float
      ≠ (stD vD0).to_add_float + specDeltaContrib pgD stD vD1 vD0 := by
  have hA0 : ¬ depActive pgD stD vD0 := by decide
  have hA1 : depActive pgD stD vD1 := by decide
  have hcount : depMatchCount pgD 5 stD vD1 vD0 = 1 := by decide
  have huniv : (Finset.univ : Finset (Fin pgD.n)) = {vD0, vD1} := by decide
  have htr : truncF (stD vD1).dependency = 0 := by
    show (⌊(1 : ℚ)/2⌋).toNat = 0
    rw [show ⌊(1 : ℚ)/2⌋ = 0 from by
      rw [Int.floor_eq_zero_iff, Set.mem_Ico]
      constructor <;> norm_num]
    rfl
  have hst : ((stD vD0).num_shortest_paths : ℚ) = 1 := by
    rw [show (stD vD0).num_shortest_paths = 1 from rfl]
    norm_num
  have hss : ((stD vD1).num_shortest_paths : ℚ) = 2 := by
    rw [show (stD vD1).num_shortest_paths = 2 from rfl]
    norm_num
  have hdep : (stD vD1).dependency = 1/2 := rfl
  have hadd : depAddInc pgD 5 stD vD0 = 1/2 := by
    unfold depAddInc
    rw [huniv, Finset.sum_pair (show vD0 ≠ vD1 from by decide)]
    rw [if_neg hA0, if_pos hA1, hcount]
    unfold depAddVal
    rw [htr, hst, hss]
    norm_num
  have e1 : ((depPropStep pgD 5 stD).1 vD0).to_add_float
      = (stD vD0).to_add_float + depAddInc pgD 5 stD vD0 := by
    simp only [depPropStep]
    rw [if_neg hA0]
  have hzero : (stD vD0).to_add_float = 0 := rfl
  have hspec : specDeltaContrib pgD stD vD1 vD0 = 3/4 := by
    unfold specDeltaContrib
    rw [hst, hss, hdep]
    norm_num
  refine ⟨by decide, by decide, ?_, hspec, ?_⟩
  · rw [e1, hadd, hzero]
    norm_num
  · rw [e1, hadd, hzero, hspec]
    norm_num

/-! ### Field-preservation lemmas for the per-source pipeline -/

theorem initItNode_keeps (srcid gid : Nat) (d : NodeData) :
    (initItNode srcid gid d).betweeness_centrality
      = d.betweeness_centrality ∧
    (initItNode srcid gid d).dependency = d.dependency := by
  unfold initItNode
  by_cases h : gid = srcid <;> simp [h]

theorem nspTrimNode_keeps (d : NodeData) :
    (nspTrimNode d).betweeness_centrality = d.betweeness_centrality ∧
    (nspTrimNode d).dependency = d.dependency := by
  unfold nspTrimNode
  split_ifs <;> exact ⟨rfl, rfl⟩

theorem nspAddNode_keeps (d : NodeData) :
    (nspAddNode d).betweeness_centrality = d.betweeness_centrality ∧
    (nspAddNode d).dependency = d.dependency := by
  unfold nspAddNode
  split_ifs <;> exact ⟨rfl, rfl⟩

theorem nspChangesNode_keeps (d : NodeData) :
    (nspChangesNode d).betweeness_centrality = d.betweeness_centrality ∧
    (nspChangesNode d).dependency = d.dependency := by
  unfold nspChangesNode
  split_ifs <;> exact ⟨rfl, rfl⟩

theorem dpTrimNode_keeps (d : NodeData) :
    (dpTrimNode d).betweeness_centrality = d.betweeness_centrality ∧
    (dpTrimNode d).dependency = d.dependency := by
  unfold dpTrimNode
  split_ifs <;> exact ⟨rfl, rfl⟩

theorem dpAddNode_bc (d : NodeData) :
    (dpAddNode d).betweeness_centrality = d.betweeness_centrality := by
  unfold dpAddNode
  split_ifs <;> rfl

theorem dpAddNode_dep (d : NodeData) (h : 0 ≤ d.dependency) :
    0 ≤ (dpAddNode d).dependency := by
  unfold dpAddNode
  split_ifs with hf
  · show 0 ≤ d.dependency + d.to_add_float
    linarith
  · exact h

theorem depChangesNode_keeps (d : NodeData) :
    (depChangesNode d).betweeness_centrality = d.betweeness_centrality ∧
    (depChangesNode d).dependency = d.dependency := by
  unfold depChangesNode
  split_ifs <;> exact ⟨rfl, rfl⟩

theorem bcNode_bc (d : NodeData) :
    d.betweeness_centrality ≤ (bcNode d).betweeness_centrality := by
  unfold bcNode
  split_ifs with hf
  · show d.betweeness_centrality ≤ d.betweeness_centrality + d.dependency
    linarith
  · exact le_rfl

theorem bcNode_dep (d : NodeData) (h : 0 ≤ d.dependency) :
    (bcNode d).dependency = 0 := by
  unfold bcNode
  split_ifs with hf
  · rfl
  · exact le_antisymm (not_lt.mp hf) h

theorem nspStep_keeps (g : Graph) (st : State g) (v : Fin g.n) :
    ((nspStep g st).1 v).betweeness_centrality
      = (st v).betweeness_centrality ∧
    ((nspStep g st).1 v).dependency = (st v).dependency := by
  simp only [nspStep]
  split_ifs <;> exact ⟨rfl, rfl⟩

theorem depPropStep_keeps (g : Graph) (srcid : Nat) (st : State g)
    (v : Fin g.n) :
    ((depPropStep g srcid st).1 v).betweeness_centrality
      = (st v).betweeness_centrality ∧
    ((depPropStep g srcid st).1 v).dependency = (st v).dependency := by
  simp only [depPropStep]
  split_ifs <;> exact ⟨rfl, rfl⟩

theorem predSuccStep_keeps (g : Graph) (st : State g) (v : Fin g.n) :
    (predSuccStep g st v).betweeness_centrality
      = (st v).betweeness_centrality ∧
    (predSuccStep g st v).dependency = (st v).dependency :=
  ⟨rfl, rfl⟩

theorem ssspLoop_keeps_aux (g : Graph) :
    ∀ (n : Nat) (st : State g), ssspMeasure g st ≤ n → ∀ v,
      ((ssspLoop g st).1 v).betweeness_centrality
        = (st v).betweeness_centrality ∧
      ((ssspLoop g st).1 v).dependency = (st v).dependency := by
  intro n
  induction n with
  | zero =>
    intro st hst v
    by_cases h : (ssspStep g st).2 = 0
    · rw [ssspLoop_base g st h]
      exact ⟨rfl, rfl⟩
    · exact absurd (lt_of_lt_of_le (ssspMeasure_lt g st h) hst)
        (Nat.not_lt_zero _)
  | succ n ih =>
    intro st hst v
    by_cases h : (ssspStep g st).2 = 0
    · rw [ssspLoop_base g st h]
      exact ⟨rfl, rfl⟩
    · rw [ssspLoop_rec g st h]
      exact ih (ssspStep g st).1
        (Nat.le_of_lt_succ (lt_of_lt_of_le (ssspMeasure_lt g st h) hst)) v

theorem sigmaRound_keeps (g : Graph) (st : State g) (v : Fin g.n) :
    ((sigmaRound g st).1 v).betweeness_centrality
      = (st v).betweeness_centrality ∧
    ((sigmaRound g st).1 v).dependency = (st v).dependency := by
  obtain ⟨b1, d1⟩ := nspStep_keeps g st v
  obtain ⟨b2, d2⟩ := nspTrimNode_keeps ((nspStep g st).1 v)
  obtain ⟨b3, d3⟩ := nspAddNode_keeps (nspTrimNode ((nspStep g st).1 v))
  obtain ⟨b4, d4⟩ := nspChangesNode_keeps
    (nspAddNode (nspTrimNode ((nspStep g st).1 v)))
  exact ⟨by rw [show ((sigmaRound g st).1 v) = nspChangesNode
      (nspAddNode (nspTrimNode ((nspStep g st).1 v))) from rfl, b4, b3, b2, b1],
    by rw [show ((sigmaRound g st).1 v) = nspChangesNode
      (nspAddNode (nspTrimNode ((nspStep g st).1 v))) from rfl, d4, d3, d2, d1]⟩

theorem sigmaLoop_keeps (g : Graph) :
    ∀ (f : Nat) (st : State g) (v : Fin g.n),
      ((sigmaLoop g f st) v).betweeness_centrality
        = (st v).betweeness_centrality ∧
      ((sigmaLoop g f st) v).dependency = (st v).dependency := by
  intro f
  induction f with
  | zero => intro st v; exact ⟨rfl, rfl⟩
  | succ f ih =>
    intro st v
    show ((if (sigmaRound g st).2 = 0 then (sigmaRound g st).1
          else sigmaLoop g f (sigmaRound g st).1) v).betweeness_centrality
        = (st v).betweeness_centrality ∧
      ((if (sigmaRound g st).2 = 0 then (sigmaRound g st).1
          else sigmaLoop g f (sigmaRound g st).1) v).dependency
        = (st v).dependency
    by_cases h : (sigmaRound g st).2 = 0
    · rw [if_pos h]
      exact sigmaRound_keeps g st v
    · rw [if_neg h]
      obtain ⟨b1, d1⟩ := ih (sigmaRound g st).1 v
      obtain ⟨b2, d2⟩ := sigmaRound_keeps g st v
      exact ⟨b1.trans b2, d1.trans d2⟩

theorem deltaRound_bc (g : Graph) (srcid : Nat) (st : State g)
    (v : Fin g.n) :
    ((deltaRound g srcid st).1 v).betweeness_centrality
      = (st v).betweeness_centrality := by
  have e : (deltaRound g srcid st).1 v
      = (if g.edges v ≠ [] then
          depChangesNode
            (dpAddNode (dpTrimNode ((depPropStep g srcid st).1 v)))
        else dpAddNode (dpTrimNode ((depPropStep g srcid st).1 v))) := rfl
  rw [e]
  have b1 := (depPropStep_keeps g srcid st v).1
  have b2 := (dpTrimNode_keeps ((depPropStep g srcid st).1 v)).1
  have b3 := dpAddNode_bc (dpTrimNode ((depPropStep g srcid st).1 v))
  split_ifs with h
  · rw [(depChangesNode_keeps _).1, b3, b2, b1]
  · rw [b3, b2, b1]

theorem deltaRound_dep (g : Graph) (srcid : Nat) (st : State g)
    (v : Fin g.n) (h : 0 ≤ (st v).dependency) :
    0 ≤ ((deltaRound g srcid st).1 v).dependency := by
  have e : (deltaRound g srcid st).1 v
      = (if g.edges v ≠ [] then
          depChangesNode
            (dpAddNode (dpTrimNode ((depPropStep g srcid st).1 v)))
        else dpAddNode (dpTrimNode ((depPropStep g srcid st).1 v))) := rfl
  rw [e]
  have d1 := (depPropStep_keeps g srcid st v).2
  have d2 := (dpTrimNode_keeps ((depPropStep g srcid st).1 v)).2
  have d3 := dpAddNode_dep (dpTrimNode ((depPropStep g srcid st).1 v))
    (by rw [d2, d1]; exact h)
  split_ifs with hg
  · rw [(depChangesNode_keeps _).2]
    exact d3
  · exact d3

theorem deltaLoop_bc (g : Graph) (srcid : Nat) :
    ∀ (f : Nat) (st : State g) (v : Fin g.n),
      ((deltaLoop g srcid f st) v).betweeness_centrality
        = (st v).betweeness_centrality := by
  intro f
  induction f with
  | zero => intro st v; rfl
  | succ f ih =>
    intro st v
    show ((if (deltaRound g srcid st).2 = 0 then (deltaRound g srcid st).1
          else deltaLoop g srcid f
            (deltaRound g srcid st).1) v).betweeness_centrality = _
    by_cases h : (deltaRound g srcid st).2 = 0
    · rw [if_pos h]
      exact deltaRound_bc g srcid st v
    · rw [if_neg h]
      exact (ih (deltaRound g srcid st).1 v).trans
        (deltaRound_bc g srcid st v)

theorem deltaLoop_dep (g : Graph) (srcid : Nat) :
    ∀ (f : Nat) (st : State g) (v : Fin g.n),
      0 ≤ (st v).dependency →
      0 ≤ ((deltaLoop g srcid f st) v).dependency := by
  intro f
  induction f with
  | zero => intro st v h; exact h
  | succ f ih =>
    intro st v h
    show 0 ≤ ((if (deltaRound g srcid st).2 = 0 then
          (deltaRound g srcid st).1
        else deltaLoop g srcid f (deltaRound g srcid st).1) v).dependency
    by_cases hc : (deltaRound g srcid st).2 = 0
    · rw [if_pos hc]
      exact deltaRound_dep g srcid st v h
    · rw [if_neg hc]
      exact ih (deltaRound g srcid st).1 v (deltaRound_dep g srcid st v h)

theorem phasesBeforeBC_bc (g : Graph) (srcid fS fD : Nat) (st : State g)
    (v : Fin g.n) :
    (phasesBeforeBC g srcid fS fD st v).betweeness_centrality
      = (st v).betweeness_centrality := by
  unfold phasesBeforeBC
  rw [deltaLoop_bc g srcid fD _ v,
      (sigmaLoop_keeps g fS _ v).1,
      (predSuccStep_keeps g _ v).1,
      (ssspLoop_keeps_aux g (ssspMeasure g (initItStep g srcid st))
        (initItStep g srcid st) le_rfl v).1]
  exact (initItNode_keeps srcid (v : Nat) (st v)).1

theorem phasesBeforeBC_dep (g : Graph) (srcid fS fD : Nat) (st : State g)
    (v : Fin g.n) (h : 0 ≤ (st v).dependency) :
    0 ≤ (phasesBeforeBC g srcid fS fD st v).dependency := by
  unfold phasesBeforeBC
  apply deltaLoop_dep g srcid fD _ v
  rw [(sigmaLoop_keeps g fS _ v).2,
      (predSuccStep_keeps g _ v).2,
      (ssspLoop_keeps_aux g (ssspMeasure g (initItStep g srcid st))
        (initItStep g srcid st) le_rfl v).2]
  rw [show (initItStep g srcid st v).dependency
      = (initItNode srcid (v : Nat) (st v)).dependency from rfl]
  rw [(initItNode_keeps srcid (v : Nat) (st v)).2]
  exact h

/-! ### Claim C8 — bc is monotone across source iterations -/

/-- C8: no phase before the BC accumulation writes
`betweeness_centrality` — across the reset, the BFS loop, Pred/Succ, the
σ-loop and the δ-loop it is unchanged — and the BC accumulation superstep
(which adds `dependency` only when positive) can only increase it, so
`bc(v)` never decreases between two sources. -/
theorem c8_bc_monotone (g : Graph) (srcid fS fD : Nat) (st : State g)
    (v : Fin g.n) :
    (phasesBeforeBC g srcid fS fD st v).betweeness_centrality
      = (st v).betweeness_centrality ∧
    (st v).betweeness_centrality
      ≤ (sourceIteration g srcid fS fD st v).betweeness_centrality := by
  refine ⟨phasesBeforeBC_bc g srcid fS fD st v, ?_⟩
  have hb := phasesBeforeBC_bc g srcid fS fD st v
  calc (st v).betweeness_centrality
      = (phasesBeforeBC g srcid fS fD st v).betweeness_centrality :=
        hb.symm
    _ ≤ (bcNode (phasesBeforeBC g srcid fS fD st v)).betweeness_centrality :=
        bcNode_bc _
    _ = (sourceIteration g srcid fS fD st v).betweeness_centrality := rfl

/-! ### Claim C10 — dependency is zero at the start of every iteration -/

theorem sourceIteration_dep_zero (g : Graph) (srcid fS fD : Nat)
    (st : State g) (h : ∀ v, 0 ≤ (st v).dependency) (v : Fin g.n) :
    (sourceIteration g srcid fS fD st v).dependency = 0 :=
  bcNode_dep _ (phasesBeforeBC_dep g srcid fS fD st v (h v))

theorem runSources_dep_zero (g : Graph) :
    ∀ (ps : List (Nat × Nat × Nat)) (st : State g),
      (∀ v, (st v).dependency = 0) →
      ∀ v, ((runSources g ps st) v).dependency = 0 := by
  intro ps
  induction ps with
  | nil => intro st h v; exact h v
  | cons p tl ih =>
    intro st h v
    exact ih (sourceIteration g p.1 p.2.1 p.2.2 st)
      (fun u => sourceIteration_dep_zero g p.1 p.2.1 p.2.2 st
        (fun w => le_of_eq (h w).symm) u) v

/-- C10: `delta(v) = 0` at the start of every per-source iteration — it is
`0` right after `InitializeGraph` and again after every completed source
iteration, for any number of iterations and any σ/δ fuels — even though
`InitializeIteration` never writes the dependency field (second
conjunct).  The invariant holds because dependency never becomes negative
(only positive `to_add_float` is folded in) and the BC accumulation resets
any positive dependency to zero. -/
theorem c10_dependency_zero (g : Graph) (ps : List (Nat × Nat × Nat))
    (st : State g) (v : Fin g.n) :
    ((runSources g ps (initializeGraphStep g st)) v).dependency = 0 ∧
    (∀ (srcid gid : Nat) (d : NodeData),
      (initItNode srcid gid d).dependency = d.dependency) := by
  constructor
  · exact runSources_dep_zero g ps (initializeGraphStep g st)
      (fun u => rfl) v
  · intro srcid gid d
    exact (initItNode_keeps srcid gid d).2

/-! ### Source-selection lemmas and claim C9 -/

theorem buildSources_spec (drw : Nat → Nat × Nat) (k : Nat) :
    ∀ (fuel gst : Nat) (s S : Finset Nat),
      buildSources drw k fuel gst s = some S → s.card ≤ k →
      s ⊆ S ∧ S.card = k ∧
      (∀ x ∈ S, x ∈ s ∨ x ∈ drawList drw gst fuel) := by
  intro fuel
  induction fuel with
  | zero =>
    intro gst s S h hcard
    unfold buildSources at h
    by_cases hle : k ≤ s.card
    · rw [if_pos hle] at h
      obtain rfl : s = S := Option.some.inj h
      exact ⟨subset_rfl, le_antisymm hcard hle, fun x hx => Or.inl hx⟩
    · rw [if_neg hle] at h
      exact Option.noConfusion h
  | succ f ih =>
    intro gst s S h hcard
    unfold buildSources at h
    by_cases hle : k ≤ s.card
    · rw [if_pos hle] at h
      obtain rfl : s = S := Option.some.inj h
      exact ⟨subset_rfl, le_antisymm hcard hle, fun x hx => Or.inl hx⟩
    · rw [if_neg hle] at h
      have hlt : s.card < k := Nat.lt_of_not_le hle
      obtain ⟨hsub, hc, hmem⟩ := ih (drw gst).2 (insert (drw gst).1 s) S h
        (le_trans (Finset.card_insert_le _ _) hlt)
      refine ⟨le_trans (Finset.subset_insert _ _) hsub, hc, ?_⟩
      intro x hx
      rcases hmem x hx with hx1 | hx2
      · rcases Finset.mem_insert.mp hx1 with he | hs
        · right
          show x ∈ (drw gst).1 :: drawList drw (drw gst).2 f
          rw [he]
          exact List.mem_cons_self _ _
        · exact Or.inl hs
      · right
        show x ∈ (drw gst).1 :: drawList drw (drw gst).2 f
        exact List.mem_cons_of_mem _ hx2

theorem drawList_lt (drw : Nat → Nat × Nat) (N : Nat)
    (hN : ∀ gs, (drw gs).1 < N) :
    ∀ (fuel gst : Nat), ∀ x ∈ drawList drw gst fuel, x < N := by
  intro fuel
  induction fuel with
  | zero => intro gst x hx; exact absurd hx (List.not_mem_nil x)
  | succ f ih =>
    intro gst x hx
    have hx2 : x ∈ (drw gst).1 :: drawList drw (drw gst).2 f := hx
    rcases List.mem_cons.mp hx2 with he | hm
    · rw [he]; exact hN gst
    · exact ih (drw gst).2 x hm

/-- C9: when `numOfSources = k > 0` (and `singleSource` unset), the source
set returned by `main`'s selection loop contains `startSource`, has
exactly `k` (distinct) elements, all in `[0, N)`, each either
`startSource` or one of the values drawn from the generator seeded with
the literal `100`; the driver's iteration order (`std::set` ascending) is
sorted; and a second run with the same inputs yields the identical
sequence. -/
theorem c9_source_selection (drw : Nat → Nat × Nat)
    (N startS k fuel : Nat) (S : Finset Nat)
    (hN : ∀ gs, (drw gs).1 < N) (hstart : startS < N) (hk : 0 < k)
    (hres : randomSources drw startS k fuel = some S) :
    startS ∈ S ∧ S.card = k ∧ (∀ x ∈ S, x < N) ∧
    (∀ x ∈ S, x = startS ∨ x ∈ drawList drw 100 fuel) ∧
    List.Sorted (· ≤ ·) (sourceSeq S) ∧
    (∀ T, randomSources drw startS k fuel = some T →
      sourceSeq T = sourceSeq S) := by
  unfold randomSources at hres
  rw [if_neg (Nat.pos_iff_ne_zero.mp hk)] at hres
  obtain ⟨hsub, hcard, hmem⟩ :=
    buildSources_spec drw k fuel 100 {startS} S hres (by simpa using hk)
  refine ⟨hsub (Finset.mem_singleton_self startS), hcard, ?_, ?_,
    Finset.sort_sorted _ _, ?_⟩
  · intro x hx
    rcases hmem x hx with h1 | h2
    · rw [Finset.mem_singleton.mp h1]
      exact hstart
    · exact drawList_lt drw N hN fuel 100 x h2
  · intro x hx
    rcases hmem x hx with h1 | h2
    · exact Or.inl (Finset.mem_singleton.mp h1)
    · exact Or.inr h2
  · intro T hT
    unfold randomSources at hT
    rw [if_neg (Nat.pos_iff_ne_zero.mp hk)] at hT
    rw [← Option.some.inj (hres.symm.trans hT)]

/-- C9 witness: `N = 10`, `startSource = 0`, `k = 3`, `minstd_rand0`
seeded with `100` and values reduced mod `10` draw `0, 9, 5, …`; the
selected set is `{0, 5, 9}` (built as `{5, 9, 0}`) and the driver iterates it ascending. -/
theorem c9_witness :
    ((∀ gs, (drwTen gs).1 < 10) ∧ (0 : Nat) < 3 ∧
      randomSources drwTen 0 3 10 = some ({5, 9, 0} : Finset Nat)) ∧
    (0 : Nat) ∈ ({5, 9, 0} : Finset Nat) ∧
    ({5, 9, 0} : Finset Nat).card = 3 ∧
    (∀ x ∈ ({5, 9, 0} : Finset Nat), x < 10) ∧
    List.Sorted (· ≤ ·) (sourceSeq ({5, 9, 0} : Finset Nat)) := by
  have hN : ∀ gs, (drwTen gs).1 < 10 :=
    fun gs => Nat.mod_lt _ (by norm_num)
  have hres : randomSources drwTen 0 3 10
      = some ({5, 9, 0} : Finset Nat) := rfl
  obtain ⟨h1, h2, h3, -, h5, -⟩ :=
    c9_source_selection drwTen 10 0 3 10 _ hN (by norm_num) (by norm_num)
      hres
  exact ⟨⟨hN, by norm_num, hres⟩, h1, h2, h3, h5⟩

end BCPull
